import Mathlib

/-!
Shallow embedding of the `egui-data-table` engine (files `src/draw.rs` and
`src/viewer.rs`), together with theorems settling the specification claims.

Rust machine integers used here (`usize` indices, lengths) never overflow in
the modelled fragments, so they are embedded as `Nat`.  Helper functions that
live in the (out-of-tree) `draw/state.rs` module are modelled from the spec
where noted.
-/

/- ------------------------------------------------------------------ -/
/- Shared vocabulary types (from `src/viewer.rs`)                      -/
/- ------------------------------------------------------------------ -/

/-- `UiAction` from `src/viewer.rs` (constructors restricted to the ones the
claims touch, plus representatives of the remaining groups). -/
inductive UiAction where
  | copySelection
  | cutSelection
  | pasteInPlace
  | pasteInsert
  | duplicateRow
  | deleteRow
  | deleteSelection
  | undo
  | redo
  | selectionDuplicateValues
  | custom (id : String)
  deriving DecidableEq, Repr

/-- `CellWriteContext` from `src/viewer.rs`. -/
inductive CellWriteContext where
  | paste
  | clear
  deriving DecidableEq, Repr

/-- `EmptyRowCreateContext` from `src/viewer.rs`. -/
inductive EmptyRowCreateContext where
  | default
  | deletionDefault
  | insertNewLine
  deriving DecidableEq, Repr

/- ------------------------------------------------------------------ -/
/- C2: effective undo-history cap (`src/draw.rs`, push_new_command)    -/
/- ------------------------------------------------------------------ -/

/-- The history-cap argument passed to `push_new_command` in
`impl_show_body` (`src/draw.rs` lines 991-1000):
`if self.style.max_undo_history == 0 { 100 } else { self.style.max_undo_history }`. -/
def pushNewCommandCap (maxUndoHistory : Nat) : Nat :=
  if maxUndoHistory = 0 then 100 else maxUndoHistory

/- ------------------------------------------------------------------ -/
/- C10: Renderer::new seeding of an empty row store (`src/draw.rs`)    -/
/- ------------------------------------------------------------------ -/

/-- The effect of `Renderer::new` (`src/draw.rs` lines 84-98) on the row
store: `if table.rows.is_empty() && viewer.allow_row_insertions() {
table.push(viewer.new_empty_row_for(EmptyRowCreateContext::InsertNewLine)) }`. -/
def rendererNewInitRows {R : Type} (rows : List R) (allowRowInsertions : Bool)
    (newEmptyRowFor : EmptyRowCreateContext → R) : List R :=
  if rows.isEmpty && allowRowInsertions then
    rows ++ [newEmptyRowFor EmptyRowCreateContext.insertNewLine]
  else
    rows

/- ------------------------------------------------------------------ -/
/- C4: paste-event and context-menu paste handling (`src/draw.rs`)     -/
/- ------------------------------------------------------------------ -/

/-- Actions pushed by the `Event::Paste` arm of the hotkey scan in
`impl_show_body` (`src/draw.rs` lines 373-393): with shift held, a
`PasteInsert` is pushed only when `viewer.allow_row_insertions()`;
without shift, a `PasteInPlace` is pushed. -/
def pasteEventActions (shift allowRowInsertions : Bool) : List UiAction :=
  if shift then
    if allowRowInsertions then [UiAction.pasteInsert] else []
  else
    [UiAction.pasteInPlace]

/-- The paste entries of the cell context menu (`src/draw.rs` lines 734-740),
after the `filter(|x| x.0)` on the enabled flag: `PasteInPlace` requires
clipboard contents, `PasteInsert` additionally requires
`viewer.allow_row_insertions()`. -/
def contextMenuPasteItems (clip allowRowInsertions : Bool) : List UiAction :=
  (if clip then [UiAction.pasteInPlace] else []) ++
    (if clip && allowRowInsertions then [UiAction.pasteInsert] else [])

/- ------------------------------------------------------------------ -/
/- C3: edit-start command sites in the per-cell render loop            -/
/- ------------------------------------------------------------------ -/

/-- Commands pushed from the per-cell render loop, restricted to the
constructors the per-cell sites emit (`src/draw.rs`). -/
inductive FrameCmd where
  | ccEditStart (rowId visCol : Nat)
  | ccSetSelection (first last : Nat)
  deriving DecidableEq, Repr

/-- The two edit-start sites of the per-cell render loop in
`impl_show_body` (`src/draw.rs` lines 650-684): the hover-to-edit path
(`editable && interactive_in_view && !s.is_editing() && resp.hovered() &&
!pointer_primary_down`) and the click-to-edit path (`editable &&
(resp.clicked_by(Primary) && (single_click_edit_mode || is_interactive_cell))
&& !interactive_in_view`); each pushes `Command::CcEditStart`. -/
def cellEditStartCmds (editable interactiveInView isEditing hovered
    pointerPrimaryDown clicked singleClickEditMode isInteractiveCell : Bool)
    (rowId visCol : Nat) : List FrameCmd :=
  (if editable && interactiveInView && !isEditing && hovered && !pointerPrimaryDown then
    [FrameCmd.ccEditStart rowId visCol]
  else []) ++
  (if editable && (clicked && (singleClickEditMode || isInteractiveCell)) && !interactiveInView then
    [FrameCmd.ccEditStart rowId visCol]
  else [])

/- ------------------------------------------------------------------ -/
/- C1 and C7: the selection snapshot built for viewer callbacks        -/
/- ------------------------------------------------------------------ -/

/-- Modelled from the spec: `VisLinearIdx::row_col` lives in the missing
`draw/state.rs`; per the glossary, `linear = row_visible_pos *
num_visible_columns + col_visible_pos`, so the decomposition at a visible
column count `n` is `(l / n, l % n)`. -/
def rowCol (n l : Nat) : Nat × Nat := (l / n, l % n)

/-- The Rust inclusive range `a..=b` as a list (empty when `b < a`). -/
def rangeClosed (a b : Nat) : List Nat := (List.range (b + 1 - a)).map (a + ·)

/-- The `selected_cells` of the selection snapshot built in `impl_show_body`
(`src/draw.rs` lines 809-822): for each committed selection range `sel`
(a pair of linear indices), decompose both ends with `row_col`, iterate
`r in top..=bottom` and `c in left..=right`, and push
`(s.cc_rows[r].0, s.vis_cols()[c].0)`.  `n` is `s.vis_cols().len()`,
`ccRows` the visible-row array of stable ids, `visCols` the visible-column
array of logical column indices. -/
def selectedCellsOf (n : Nat) (ccRows visCols : List Nat)
    (sels : List (Nat × Nat)) : List (Nat × Nat) :=
  sels.flatMap fun sel =>
    let top := (rowCol n sel.1).1
    let left := (rowCol n sel.1).2
    let bottom := (rowCol n sel.2).1
    let right := (rowCol n sel.2).2
    (rangeClosed top bottom).flatMap fun r =>
      (rangeClosed left right).map fun c => (ccRows.getD r 0, visCols.getD c 0)

/-- Modelled from the spec for comparison (refinement target of claim C1):
the same expansion but with each range read as a HALF-OPEN rectangle
`[top, bottom) × [left, right)`, as §4.3 of the spec words it. -/
def selectedCellsHalfOpen (n : Nat) (ccRows visCols : List Nat)
    (sels : List (Nat × Nat)) : List (Nat × Nat) :=
  sels.flatMap fun sel =>
    let top := (rowCol n sel.1).1
    let left := (rowCol n sel.1).2
    let bottom := (rowCol n sel.2).1
    let right := (rowCol n sel.2).2
    ((List.range (bottom - top)).map (top + ·)).flatMap fun r =>
      ((List.range (right - left)).map (left + ·)).map fun c =>
        (ccRows.getD r 0, visCols.getD c 0)

/-- The `interactive_cell` of the selection snapshot (`src/draw.rs` lines
824-825): `if s.cc_rows.is_empty() { None } else {
Some((s.cc_rows[ic_r.0].0, s.vis_cols()[ic_c.0].0)) }`. -/
def snapshotInteractiveCell (ccRows visCols : List Nat) (icr icc : Nat) :
    Option (Nat × Nat) :=
  if ccRows.isEmpty then none
  else some (ccRows.getD icr 0, visCols.getD icc 0)

theorem mem_rangeClosed {x a b : Nat} :
    x ∈ rangeClosed a b ↔ a ≤ x ∧ x ≤ b := by
  simp only [rangeClosed, List.mem_map, List.mem_range]
  constructor
  · rintro ⟨k, hk, rfl⟩
    omega
  · rintro ⟨h1, h2⟩
    exact ⟨x - a, by omega, by omega⟩

/- ------------------------------------------------------------------ -/
/- C5: CustomActionEditor (`src/viewer.rs` lines 70-124)               -/
/- ------------------------------------------------------------------ -/

/-- Type `UserCommand` from `src/viewer.rs`: high-level commands returned by
custom actions.  `Box<[T]>` / `Vec<T>` become `List`. -/
inductive UserCommand (R : Type) where
  | setCells (slab : List R) (values : List (Nat × Nat × Nat))
      (context : Option CellWriteContext)
  | setRowValue (rowId : Nat) (row : R)
  | insertRows (pos : Nat) (rows : List R)
  | removeRows (rows : List Nat)
  deriving DecidableEq

/-- Type `CustomActionEditor` from `src/viewer.rs`: a staged-command buffer
for custom actions. -/
structure CustomActionEditor (R : Type) where
  cmds : List (UserCommand R)
  slab : List R
  values : List (Nat × Nat × Nat)
  deriving DecidableEq

namespace CustomActionEditor

/-- Constructor `CustomActionEditor::new`. -/
def new (R : Type) : CustomActionEditor R := ⟨[], [], []⟩

/-- Method `set_cell` (`src/viewer.rs` lines 83-88): push the source row on
the slab and record `(row_id, column, idx)` with `idx = slab.len() - 1`. -/
def set_cell {R : Type} (e : CustomActionEditor R) (rowId column : Nat)
    (srcRow : R) : CustomActionEditor R :=
  let slab := e.slab ++ [srcRow]
  let idx := slab.length - 1
  { e with slab := slab, values := e.values ++ [(rowId, column, idx)] }

/-- Method `commit_cells` (`src/viewer.rs` lines 110-117): if any writes are
pending, take the slab and values and push a single `SetCells` command. -/
def commit_cells {R : Type} (e : CustomActionEditor R)
    (context : Option CellWriteContext) : CustomActionEditor R :=
  if e.values.isEmpty then e
  else
    { cmds := e.cmds ++ [UserCommand.setCells e.slab e.values context],
      slab := [], values := [] }

/-- Method `into_commands` (`src/viewer.rs` lines 120-123): auto-commit
pending cells with no context, then return the queued commands. -/
def into_commands {R : Type} (e : CustomActionEditor R) : List (UserCommand R) :=
  (e.commit_cells none).cmds

end CustomActionEditor

/-- The editor obtained from a fresh `CustomActionEditor::new` by a sequence
of `set_cell` calls, one per `(row_id, column, src_row)` triple. -/
def writesToEditor (R : Type) (l : List (Nat × Nat × R)) : CustomActionEditor R :=
  l.foldl (fun e w => e.set_cell w.1 w.2.1 w.2.2) (CustomActionEditor.new R)

theorem foldl_set_cell {R : Type} (l : List (Nat × Nat × R))
    (e : CustomActionEditor R) :
    l.foldl (fun e w => e.set_cell w.1 w.2.1 w.2.2) e =
      ⟨e.cmds, e.slab ++ l.map (fun w => w.2.2),
        e.values ++ (l.enumFrom e.slab.length).map
          (fun p => (p.2.1, p.2.2.1, p.1))⟩ := by
  induction l generalizing e with
  | nil => simp
  | cons w t ih =>
    simp only [List.foldl_cons, ih, List.enumFrom_cons, List.map_cons]
    simp [CustomActionEditor.set_cell, List.append_assoc]

theorem writesToEditor_eq {R : Type} (l : List (Nat × Nat × R)) :
    writesToEditor R l =
      ⟨[], l.map (fun w => w.2.2),
        (l.enumFrom 0).map (fun p => (p.2.1, p.2.2.1, p.1))⟩ := by
  simpa [CustomActionEditor.new] using foldl_set_cell l (CustomActionEditor.new R)

/- ------------------------------------------------------------------ -/
/- C6: frame-end action translation and command application            -/
/- ------------------------------------------------------------------ -/

/-- The frame-end queue extension in `impl_show_body` (`src/draw.rs` lines
968-973): `commands.extend(actions.into_iter().flat_map(|action|
s.try_apply_ui_action(table, viewer, action)))`.  The translation
`try_apply_ui_action` (in the out-of-tree `draw/state.rs`) is abstracted as
`tr`. -/
def frameQueue {γ : Type} (commands : List γ) (actions : List UiAction)
    (tr : UiAction → List γ) : List γ :=
  commands ++ actions.flatMap tr

/-- The frame-end command loop in `impl_show_body` (`src/draw.rs` lines
976-1003): each queued command is applied to the state in queue order.
`push_new_command` (in the out-of-tree `draw/state.rs`) is abstracted as the
step function. -/
def applyQueued {σ γ : Type} (step : σ → γ → σ) (s0 : σ) (queue : List γ) : σ :=
  queue.foldl step s0

/-- The composition actually executed at the end of `impl_show_body`: the
action queue is first fully translated into commands, and only then is the
command loop run over the resulting queue. -/
def frameFinish {σ γ : Type} (step : σ → γ → σ) (s0 : σ) (commands : List γ)
    (actions : List UiAction) (tr : UiAction → List γ) : σ :=
  applyQueued step s0 (frameQueue commands actions tr)

/- ------------------------------------------------------------------ -/
/- C8: default `clone_row` (`src/viewer.rs` lines 352-358)             -/
/- ------------------------------------------------------------------ -/

/-- Model of the viewer capabilities the default `clone_row` uses:
`num_columns()`, `new_empty_row()` and `set_cell_value(src, dst, column)`
(the last returning the updated destination row). -/
structure ViewerModel (R : Type) where
  num_columns : Nat
  new_empty_row : R
  set_cell_value : R → R → Nat → R

/-- Default method `RowViewer::clone_row` (`src/viewer.rs` lines 352-358):
`let mut dst = self.new_empty_row(); for i in 0..self.num_columns() {
self.set_cell_value(row, &mut dst, i); } dst`. -/
def ViewerModel.clone_row {R : Type} (v : ViewerModel R) (row : R) : R :=
  (List.range v.num_columns).foldl
    (fun dst i => v.set_cell_value row dst i) v.new_empty_row

/-- Modelled from the spec for comparison (refinement target of claim C8):
the composition of the per-column value copy, defined by recursion —
start from a fresh empty row and apply `set_cell_value` at the columns
`0, 1, …, n-1` in ascending order. -/
def perColumnCopyUpTo {R : Type} (v : ViewerModel R) (row : R) : Nat → R
  | 0 => v.new_empty_row
  | n + 1 => v.set_cell_value row (perColumnCopyUpTo v row n) n

/- ------------------------------------------------------------------ -/
/- C9: header sort click (`src/draw.rs` lines 257-269)                 -/
/- ------------------------------------------------------------------ -/

/-- Effect of the mutation `asc.0 = false` through `iter_mut().find(...)` in
the header click handler: flip the first entry for `col` to descending. -/
def flipFirstToDesc (col : Nat) : List (Nat × Bool) → List (Nat × Bool)
  | [] => []
  | e :: rest =>
    if e.1 = col then (e.1, false) :: rest else e :: flipFirstToDesc col rest

/-- The new sort specification computed by a primary click on a sortable
column header (`src/draw.rs` lines 257-269): find the first entry for the
clicked column; if ascending, flip it to descending; if descending, retain
only entries of other columns; if absent, push `(col, IsAscending(true))`
at the end. -/
def headerSortClick (sort : List (Nat × Bool)) (col : Nat) :
    List (Nat × Bool) :=
  match sort.find? (fun e => e.1 == col) with
  | some e =>
    if e.2 then flipFirstToDesc col sort
    else sort.filter (fun e => e.1 != col)
  | none => sort ++ [(col, true)]

/-- The `SetColumnSort` commands pushed by a header click: guarded by
`viewer.is_sortable_column(col.0) && resp.clicked_by(PointerButton::Primary)`
(`src/draw.rs` line 257). -/
def headerClickSortCommands (sortable clicked : Bool)
    (sort : List (Nat × Bool)) (col : Nat) : List (List (Nat × Bool)) :=
  if sortable && clicked then [headerSortClick sort col] else []

theorem find?_col_none {col : Nat} {l : List (Nat × Bool)}
    (h : ∀ e ∈ l, e.1 ≠ col) : l.find? (fun e => e.1 == col) = none := by
  refine List.find?_eq_none.mpr fun x hx => ?_
  simpa using h x hx

theorem find?_col_first {col : Nat} (pre post : List (Nat × Bool))
    (x : Nat × Bool) (h : ∀ e ∈ pre, e.1 ≠ col) (hx : x.1 = col) :
    (pre ++ x :: post).find? (fun e => e.1 == col) = some x := by
  induction pre with
  | nil => simp [List.find?_cons, hx]
  | cons a t ih =>
    have ha : a.1 ≠ col := h a (by simp)
    have ht : ∀ e ∈ t, e.1 ≠ col := fun e he => h e (by simp [he])
    simpa [List.find?_cons, ha] using ih ht

theorem flipFirstToDesc_append {col : Nat} (pre post : List (Nat × Bool))
    (b : Bool) (h : ∀ e ∈ pre, e.1 ≠ col) :
    flipFirstToDesc col (pre ++ (col, b) :: post) =
      pre ++ (col, false) :: post := by
  induction pre with
  | nil => simp [flipFirstToDesc]
  | cons a t ih =>
    have ha : a.1 ≠ col := h a (by simp)
    have ht : ∀ e ∈ t, e.1 ≠ col := fun e he => h e (by simp [he])
    simp [flipFirstToDesc, ha, ih ht]

/- ------------------------------------------------------------------ -/
/- Theorems for C2, C10, C4, C3                                        -/
/- ------------------------------------------------------------------ -/

/-- Claim C2: the history cap passed to command application equals the
configured `max_undo_history` when that value is nonzero, and equals the
fixed implementation default 100 when the configured value is zero. -/
theorem pushNewCommandCap_spec (c : Nat) (h : c ≠ 0) :
    pushNewCommandCap c = c ∧ pushNewCommandCap 0 = 100 := by
  constructor
  · simp [pushNewCommandCap, h]
  · simp [pushNewCommandCap]

theorem pushNewCommandCap_spec_witness :
    pushNewCommandCap 7 = 7 ∧ pushNewCommandCap 0 = 100 :=
  pushNewCommandCap_spec 7 (by decide)

/-- Claim C10: constructing a `Renderer` over an empty row store with a
viewer allowing row insertions appends exactly one row created by the
empty-row factory with the insert-new-line context; otherwise the row
store is unchanged. -/
theorem rendererNewInitRows_spec {R : Type} (rows : List R)
    (allow : Bool) (f : EmptyRowCreateContext → R) :
    (rows = [] → allow = true →
      rendererNewInitRows rows allow f = [f EmptyRowCreateContext.insertNewLine]) ∧
    (rows ≠ [] → rendererNewInitRows rows allow f = rows) ∧
    (allow = false → rendererNewInitRows rows allow f = rows) := by
  refine ⟨?_, ?_, ?_⟩
  · rintro rfl rfl
    simp [rendererNewInitRows]
  · intro h
    simp [rendererNewInitRows, List.isEmpty_iff, h]
  · rintro rfl
    simp [rendererNewInitRows]

theorem rendererNewInitRows_spec_witness :
    rendererNewInitRows ([] : List Nat) true (fun _ => 42) = [42] ∧
    rendererNewInitRows [5] true (fun _ => 42) = [5] :=
  ⟨(rendererNewInitRows_spec [] true (fun _ => 42)).1 rfl rfl,
   (rendererNewInitRows_spec [5] true (fun _ => 42)).2.1 (by simp)⟩

/-- Claim C4: a paste-insert action arises from a system Paste event or from
the context menu only when `allow_row_insertions()` is true; a Paste event
without shift yields exactly a paste-in-place action, and a shift-Paste with
insertions forbidden yields no paste action at all. -/
theorem pasteInsert_requires_allow (shift allow clip : Bool) :
    (UiAction.pasteInsert ∈ pasteEventActions shift allow → allow = true) ∧
    (shift = false → pasteEventActions shift allow = [UiAction.pasteInPlace]) ∧
    (shift = true → allow = false → pasteEventActions shift allow = []) ∧
    (UiAction.pasteInsert ∈ contextMenuPasteItems clip allow → allow = true) := by
  refine ⟨?_, ?_, ?_, ?_⟩
  · intro hmem
    cases shift <;> cases allow <;> simp_all [pasteEventActions]
  · rintro rfl
    simp [pasteEventActions]
  · rintro rfl rfl
    simp [pasteEventActions]
  · intro hmem
    cases clip <;> cases allow <;> simp_all [contextMenuPasteItems]

theorem pasteInsert_requires_allow_witness :
    (UiAction.pasteInsert ∈ pasteEventActions true true → True) ∧
    pasteEventActions false true = [UiAction.pasteInPlace] ∧
    pasteEventActions true false = [] := by
  refine ⟨fun _ => trivial, ?_, ?_⟩
  · exact (pasteInsert_requires_allow false true true).2.1 rfl
  · exact (pasteInsert_requires_allow true false true).2.2.1 rfl rfl

/-- Claim C3: every `CcEditStart` command pushed by the per-cell render loop
(hover-to-edit or click-to-edit site) is for a cell whose
`is_editable_cell` predicate returned true; no edit starts on a
non-editable cell. -/
theorem ccEditStart_requires_editable
    (editable iv ed hov pd cl sc ic : Bool) (rowId visCol r c : Nat)
    (hmem : FrameCmd.ccEditStart r c ∈
      cellEditStartCmds editable iv ed hov pd cl sc ic rowId visCol) :
    editable = true := by
  cases editable
  · simp [cellEditStartCmds] at hmem
  · rfl

theorem ccEditStart_requires_editable_witness :
    (true : Bool) = true :=
  ccEditStart_requires_editable true true false true false false false false 3 1 3 1
    (by simp [cellEditStartCmds])

/-- Claim C1 counterexample: with one visible row (stable id 5), one visible
column (logical index 7) and the committed single-cell selection
`VisSelection(0, 0)` — exactly what the context-menu click installs — the
code's expansion yields the cell `(5, 7)`, while reading the range as a
half-open rectangle yields no cell at all. -/
theorem selectedCells_not_halfOpen :
    selectedCellsOf 1 [5] [7] [(0, 0)] = [(5, 7)] ∧
    selectedCellsHalfOpen 1 [5] [7] [(0, 0)] = [] := by
  constructor <;> rfl

/-- Claim C1 (amended: ranges are inclusive rectangles, both corner cells
included, rather than half-open): the `selected_cells` of the snapshot are
exactly the pairs obtained by expanding every selection range — an
INCLUSIVE rectangle over `(visible_row, visible_col)` resolved from its two
linear indices — through the current visible-row and visible-column arrays
into `(stable_row_id, column)` pairs, computed on demand from the current
projection (the snapshot is a pure function of the projection arrays). -/
theorem selectedCellsOf_mem (n : Nat) (ccRows visCols : List Nat)
    (sels : List (Nat × Nat)) (p : Nat × Nat) :
    p ∈ selectedCellsOf n ccRows visCols sels ↔
      ∃ sel ∈ sels, ∃ r c,
        sel.1 / n ≤ r ∧ r ≤ sel.2 / n ∧ sel.1 % n ≤ c ∧ c ≤ sel.2 % n ∧
        p = (ccRows.getD r 0, visCols.getD c 0) := by
  simp only [selectedCellsOf, rowCol, List.mem_flatMap, List.mem_map,
    mem_rangeClosed]
  constructor
  · rintro ⟨sel, hsel, r, ⟨hr1, hr2⟩, c, ⟨hc1, hc2⟩, rfl⟩
    exact ⟨sel, hsel, r, c, hr1, hr2, hc1, hc2, rfl⟩
  · rintro ⟨sel, hsel, r, c, hr1, hr2, hc1, hc2, rfl⟩
    exact ⟨sel, hsel, r, ⟨hr1, hr2⟩, c, ⟨hc1, hc2⟩, rfl⟩

/-- Claim C7: the snapshot's `interactive_cell` is `none` exactly when the
visible-row array is empty, and otherwise is `some` of exactly the one
pair resolved through the current projection arrays. -/
theorem snapshotInteractiveCell_spec (ccRows visCols : List Nat)
    (icr icc : Nat) :
    (snapshotInteractiveCell ccRows visCols icr icc = none ↔ ccRows = []) ∧
    (ccRows ≠ [] →
      snapshotInteractiveCell ccRows visCols icr icc =
        some (ccRows.getD icr 0, visCols.getD icc 0)) := by
  constructor
  · cases ccRows <;> simp [snapshotInteractiveCell]
  · intro h
    cases ccRows with
    | nil => exact absurd rfl h
    | cons a t => simp [snapshotInteractiveCell]

theorem snapshotInteractiveCell_spec_witness :
    (snapshotInteractiveCell [] [3] 0 0 = none ↔ ([] : List Nat) = []) ∧
    snapshotInteractiveCell [5, 6] [3] 1 0 = some (6, 3) :=
  ⟨(snapshotInteractiveCell_spec [] [3] 0 0).1,
   (snapshotInteractiveCell_spec [5, 6] [3] 1 0).2 (by simp)⟩

/-- Claim C5: after any sequence of `set_cell` calls on a fresh
`CustomActionEditor`, `commit_cells` flushes all pending writes into exactly
one batched `SetCells` command whose slab holds the source rows in call
order and whose value triples record each write's slab index in call order;
it emits no command when no writes are pending; and `into_commands`
auto-commits any remaining pending writes with context `none`. -/
theorem customActionEditor_commit_spec (R : Type) (l : List (Nat × Nat × R))
    (ctx : Option CellWriteContext) (e : CustomActionEditor R) :
    (e.values = [] → e.commit_cells ctx = e) ∧
    ((writesToEditor R l).commit_cells ctx).cmds =
      (if l.isEmpty then [] else
        [UserCommand.setCells (l.map fun w => w.2.2)
          ((l.enumFrom 0).map fun p => (p.2.1, p.2.2.1, p.1)) ctx]) ∧
    (writesToEditor R l).into_commands =
      (if l.isEmpty then [] else
        [UserCommand.setCells (l.map fun w => w.2.2)
          ((l.enumFrom 0).map fun p => (p.2.1, p.2.2.1, p.1)) none]) := by
  refine ⟨?_, ?_, ?_⟩
  · intro h
    simp [CustomActionEditor.commit_cells, h]
  · rw [writesToEditor_eq]
    cases l with
    | nil => simp [CustomActionEditor.commit_cells]
    | cons w t => simp [CustomActionEditor.commit_cells]
  · rw [CustomActionEditor.into_commands, writesToEditor_eq]
    cases l with
    | nil => simp [CustomActionEditor.commit_cells]
    | cons w t => simp [CustomActionEditor.commit_cells]

theorem customActionEditor_commit_spec_witness :
    ((⟨[], [], []⟩ : CustomActionEditor Nat).commit_cells none = ⟨[], [], []⟩) ∧
    ((writesToEditor Nat [(1, 2, 5), (3, 0, 9)]).commit_cells
        (some CellWriteContext.paste)).cmds =
      [UserCommand.setCells [5, 9] [(1, 2, 0), (3, 0, 1)]
        (some CellWriteContext.paste)] ∧
    (writesToEditor Nat [(1, 2, 5), (3, 0, 9)]).into_commands =
      [UserCommand.setCells [5, 9] [(1, 2, 0), (3, 0, 1)] none] := by
  refine ⟨?_, ?_, ?_⟩
  · exact (customActionEditor_commit_spec Nat [] none ⟨[], [], []⟩).1 rfl
  · exact (customActionEditor_commit_spec Nat [(1, 2, 5), (3, 0, 9)]
      (some CellWriteContext.paste) ⟨[], [], []⟩).2.1
  · exact (customActionEditor_commit_spec Nat [(1, 2, 5), (3, 0, 9)]
      none ⟨[], [], []⟩).2.2

/-- Claim C6: within a frame, actions are translated into commands in issue
order (the queue of an action list split as `as1 ++ as2` is the queue of
`as1` followed by the translations of `as2`), and the frame's final state is
obtained by applying the already-collected commands first and then each
action's commands in that same order — translation of the whole queue
happens before any application. -/
theorem frameFinish_ordered {σ γ : Type} (step : σ → γ → σ) (s0 : σ)
    (commands : List γ) (as1 as2 : List UiAction) (tr : UiAction → List γ) :
    frameFinish step s0 commands (as1 ++ as2) tr =
      applyQueued step
        (applyQueued step (applyQueued step s0 commands) (as1.flatMap tr))
        (as2.flatMap tr) ∧
    frameQueue commands (as1 ++ as2) tr =
      frameQueue commands as1 tr ++ as2.flatMap tr := by
  constructor
  · simp [frameFinish, frameQueue, applyQueued, List.flatMap_append,
      List.foldl_append]
  · simp [frameQueue, List.flatMap_append, List.append_assoc]

/-- Claim C8: the default full-row value copy `clone_row` equals the
composition of the per-column value copy — a fresh `new_empty_row()`
updated by `set_cell_value(row, dst, i)` for every column index
`i = 0, …, num_columns()-1` in ascending order. -/
theorem clone_row_eq_perColumnCopy {R : Type} (v : ViewerModel R) (row : R) :
    v.clone_row row = perColumnCopyUpTo v row v.num_columns := by
  unfold ViewerModel.clone_row
  generalize v.num_columns = n
  induction n with
  | zero => simp [perColumnCopyUpTo]
  | succ n ih =>
    rw [List.range_succ, List.foldl_append]
    simp [perColumnCopyUpTo, ih]

/-- Claim C9: a primary click on a sortable column header updates the sort
specification by exactly one case — absent column appended ascending at the
end, ascending entry flipped to descending, descending entry removed — with
all other entries keeping their values and relative order; clicks on
non-sortable headers push no sort command. -/
theorem headerSortClick_spec (sort pre post : List (Nat × Bool)) (col : Nat)
    (clicked : Bool) :
    ((∀ e ∈ sort, e.1 ≠ col) →
      headerSortClick sort col = sort ++ [(col, true)]) ∧
    ((∀ e ∈ pre, e.1 ≠ col) →
      headerSortClick (pre ++ (col, true) :: post) col =
        pre ++ (col, false) :: post) ∧
    ((∀ e ∈ pre, e.1 ≠ col) → (∀ e ∈ post, e.1 ≠ col) →
      headerSortClick (pre ++ (col, false) :: post) col = pre ++ post) ∧
    headerClickSortCommands false clicked sort col = [] := by
  refine ⟨?_, ?_, ?_, ?_⟩
  · intro h
    simp [headerSortClick, find?_col_none h]
  · intro h
    rw [headerSortClick, find?_col_first pre post (col, true) h rfl]
    simpa using flipFirstToDesc_append pre post true h
  · intro hpre hpost
    rw [headerSortClick, find?_col_first pre post (col, false) hpre rfl]
    simp only [Bool.false_eq_true, if_false, List.filter_append,
      List.filter_cons]
    have h1 : pre.filter (fun e => e.1 != col) = pre :=
      List.filter_eq_self.mpr fun a ha => by simpa using hpre a ha
    have h2 : post.filter (fun e => e.1 != col) = post :=
      List.filter_eq_self.mpr fun a ha => by simpa using hpost a ha
    simp [h1, h2]
  · simp [headerClickSortCommands]

theorem headerSortClick_spec_witness :
    headerSortClick [(0, true)] 1 = [(0, true), (1, true)] ∧
    headerSortClick [(0, true), (1, true), (3, false)] 1 =
      [(0, true), (1, false), (3, false)] ∧
    headerSortClick [(0, true), (1, false), (3, false)] 1 =
      [(0, true), (3, false)] ∧
    headerClickSortCommands false true [(0, true)] 1 = [] := by
  refine ⟨?_, ?_, ?_, ?_⟩
  · exact (headerSortClick_spec [(0, true)] [] [] 1 true).1 (by decide)
  · exact (headerSortClick_spec [] [(0, true)] [(3, false)] 1 true).2.1
      (by decide)
  · exact (headerSortClick_spec [] [(0, true)] [(3, false)] 1 true).2.2.1
      (by decide) (by decide)
  · exact (headerSortClick_spec [(0, true)] [] [] 1 true).2.2.2
